import Mathlib

/-!
Verification of the Noisy Student self-training loop (`noisy_student.py`).

The development shallowly embeds the control flow of `Trainer`:
the scheduler construction of `init_settings`, the per-round epoch loop of
`train_noisy` (early stopping, checkpoint writes, scheduler stepping), the
round orchestration of `train`, and the pseudo-labeling pass
`get_pseudo_label`.  Machine-learning collaborators (the network forward
pass, metric values) are parameters: per-epoch validation top-1 values and
the teacher's per-example (max-softmax-probability, argmax-class) outputs
are supplied as inputs to the embedded control flow, exactly where the
Python code consumes them as opaque results of external calls.
-/

namespace NoisyStudent

/-- A Python runtime error surfaced by the embedded control flow. -/
inductive PyError where
  | nameError (name : String)
deriving Repr, DecidableEq

/-! ### `init_settings` (lines 45-57): learning-rate scheduler construction -/

/-- The scheduler objects `torch.optim.lr_scheduler.*` as constructed by
`init_settings`; their numeric payloads are the constructor arguments. -/
inductive LRScheduler where
  | multiStepLR (milestones : List Nat) (gamma : ℚ)
  | cosineAnnealingLR (tmax : Nat) (eta_min : ℚ)
  | oneCycleLR (max_lr : ℚ) (steps_per_epoch : Nat) (epochs : Nat)
deriving Repr, DecidableEq

/-- Embedding of the scheduler branch of `Trainer.init_settings`
(lines 48-57).  The `"cycle"` branch evaluates
`OneCycleLR(..., steps_per_epoch=iter_per_epoch, ...)`, and the name
`iter_per_epoch` is bound nowhere (not a local, not a module-level name),
so Python raises `NameError` before the constructor runs.  A scheduler
string matching none of the three branches leaves `self.scheduler`
unassigned, modelled as `none`. -/
def init_scheduler (scheduler : String) (milestone : List Nat) (lr_factor : ℚ)
    (tmax : Nat) (min_lr : ℚ) : Except PyError (Option LRScheduler) :=
  if scheduler = "step" then .ok (some (.multiStepLR milestone lr_factor))
  else if scheduler = "cos" then .ok (some (.cosineAnnealingLR tmax min_lr))
  else if scheduler = "cycle" then .error (.nameError "iter_per_epoch")
  else .ok none

/-! ### `train_noisy` (lines 70-131): per-round epoch loop

The loop's control flow depends only on the per-epoch validation top-1
value (from `validate()`), the patience, and the scheduler string; those
are the embedded inputs.  `best_loss`/`best_acc2` bookkeeping does not
influence control flow and is omitted.  A checkpoint write
(`torch.save(..., best_model_{step}.pth)`, line 113) is recorded as the
pair (epoch index, validation top-1). -/

/-- Observable outcome of one `train_noisy` round:
how many epochs ran, the final `best_epoch`/`best_acc`, the ordered list
of checkpoint writes, and how many times `self.scheduler.step()` ran. -/
structure RoundResult where
  epochsRun : Nat
  bestEpoch : Nat
  bestAcc : ℚ
  writes : List (Nat × ℚ)
  schedSteps : Nat
deriving Repr, DecidableEq

/-- The scheduler advance at the top of one epoch (lines 85-87):
`self.scheduler.step()` runs iff the policy string is `"cos"` and
`epoch > self.args.warm_epoch`; no other branch of the epoch loop touches
the scheduler. -/
def schedTick (scheduler : String) (warmEpoch epoch scheds : Nat) : Nat :=
  if scheduler = "cos" ∧ warmEpoch < epoch then scheds + 1 else scheds

/-- The epoch loop of `train_noisy` (lines 83-122), one step per remaining
validation value.  Per epoch, in source order: step the scheduler iff the
policy is `"cos"` and `warm_epoch < epoch` (lines 85-87); if
`val_top1 > best_acc` reset the early-stop counter, record the best epoch
and accuracy and write a checkpoint (lines 106-117), else increment the
counter (line 119); break when the counter equals the patience
(line 121). -/
def epochLoop (scheduler : String) (warmEpoch patience : Nat) :
    List ℚ → Nat → Nat → ℚ → Nat → List (Nat × ℚ) → Nat → RoundResult
  | [], epoch, _, bestAcc, bestEpoch, writes, scheds =>
      ⟨epoch, bestEpoch, bestAcc, writes, scheds⟩
  | v :: rest, epoch, earlyStopping, bestAcc, bestEpoch, writes, scheds =>
      if bestAcc < v then
        if 0 = patience then
          ⟨epoch + 1, epoch, v, writes ++ [(epoch, v)],
            schedTick scheduler warmEpoch epoch scheds⟩
        else
          epochLoop scheduler warmEpoch patience rest (epoch + 1) 0 v epoch
            (writes ++ [(epoch, v)]) (schedTick scheduler warmEpoch epoch scheds)
      else
        if earlyStopping + 1 = patience then
          ⟨epoch + 1, bestEpoch, bestAcc, writes, schedTick scheduler warmEpoch epoch scheds⟩
        else
          epochLoop scheduler warmEpoch patience rest (epoch + 1) (earlyStopping + 1)
            bestAcc bestEpoch writes (schedTick scheduler warmEpoch epoch scheds)

/-- One round of `Trainer.train_noisy`: run the epoch loop over the
epoch-indexed validation top-1 values `vals` (the epoch budget E is
`vals.length`), starting from `best_epoch = 0`, `best_acc = 0`,
`early_stopping = 0` (lines 77-81). -/
def train_noisy (scheduler : String) (warmEpoch patience : Nat) (vals : List ℚ) : RoundResult :=
  epochLoop scheduler warmEpoch patience vals 0 0 0 0 [] 0

/-! ### `train` (lines 62-68): round orchestration -/

/-- The externally visible actions of `Trainer.train`, in order:
`train_noisy(step)`; `torch.load(best_model_{step}.pth)` followed by
`teacher.load_state_dict` (one load event); `get_pseudo_label()` run with
the teacher just loaded from checkpoint `teacherStep`. -/
inductive TrainEvent where
  | trainNoisy (step : Nat)
  | loadCheckpoint (step : Nat)
  | pseudoLabel (teacherStep : Nat)
deriving Repr, DecidableEq

/-- The body of the `for step in range(steps)` loop in `Trainer.train`
(lines 64-67). -/
def roundEvents (step : Nat) : List TrainEvent :=
  [.trainNoisy step, .loadCheckpoint step, .pseudoLabel step]

/-- The loop of `Trainer.train`, with Python's loop-variable semantics
made explicit: the trace of events so far, plus the last value bound to
`step` (`none` when the loop body never ran). -/
def trainLoop (steps : Nat) : List TrainEvent × Option Nat :=
  (List.range steps).foldl (fun acc s => (acc.1 ++ roundEvents s, some s)) ([], none)

/-- Embedding of `Trainer.train` (lines 62-68): run the round loop, then
`self.train_noisy(step + 1)`.  Reading `step` after a zero-iteration loop
raises `NameError` (the local was never bound), so the run fails before
the final training pass. -/
def train (steps : Nat) : Except PyError (List TrainEvent) :=
  match trainLoop steps with
  | (_, none) => .error (.nameError "step")
  | (events, some s) => .ok (events ++ [.trainNoisy (s + 1)])

/-! ### `get_pseudo_label` (lines 133-151): pseudo-labeling pass -/

/-- The filtered index list of line 146:
`[i for i, p in enumerate(prediction) if p > self.args.threshold]`. -/
def acceptedIndices (threshold : ℚ) (prediction : List ℚ) : List Nat :=
  (prediction.enum.filter (fun ip => threshold < ip.2)).map Prod.fst

/-- The filtered label list of line 147:
`[l for p, l in zip(prediction, pseudo_labels) if p > self.args.threshold]`. -/
def acceptedLabels (threshold : ℚ) (prediction : List ℚ) (pseudo_labels : List Nat) : List Nat :=
  ((prediction.zip pseudo_labels).filter (fun pl => threshold < pl.1)).map Prod.snd

/-- Modelled from the spec: the dataset provider's
`from_indices_and_labels` operation (the `CIFAR10` constructor with
`split='pseudo'` lives in `datasets/loader_cifar.py`, which is not under
`src/`).  Per spec section 6 it constructs a labeled partition "drawn from
the same raw inputs but with these assigned labels": each accepted pool
index is paired with its assigned label. -/
def fromIndicesAndLabels {Input : Type} (pool : List Input)
    (indices labels : List Nat) : List (Input × Nat) :=
  (indices.zip labels).filterMap (fun il => (pool.get? il.1).map (fun x => (x, il.2)))

/-- The mutable `Trainer` attributes `get_pseudo_label` reads or writes:
the teacher parameters, the original labeled set `self.train_ds`
(assigned once in `__init__`, line 31, never reassigned), the unlabeled
pool, and the dataset behind `self.train_dl` (the training set the next
`train_noisy` consumes). -/
structure TrainerState (Params Input : Type) where
  teacher : Params
  train_ds : List (Input × Nat)
  unlabel_pool : List Input
  train_dl : List (Input × Nat)
deriving Repr, DecidableEq

/-- The teacher's inference outputs on the pool, flattened across the
(unshuffled) batches of `unlabel_dl` in pool order (lines 138-143):
per example, the max softmax probability.  `forward` is the external
model collaborator, mapping teacher parameters and an input to
(max probability, argmax class). -/
def predictionOf {Params Input : Type} (forward : Params → Input → ℚ × Nat)
    (s : TrainerState Params Input) : List ℚ :=
  s.unlabel_pool.map (fun x => (forward s.teacher x).1)

/-- Per example, the argmax class (line 144). -/
def pseudoLabelsOf {Params Input : Type} (forward : Params → Input → ℚ × Nat)
    (s : TrainerState Params Input) : List Nat :=
  s.unlabel_pool.map (fun x => (forward s.teacher x).2)

/-- The accepted (pool index, predicted class) pairs of one
pseudo-labeling pass. -/
def acceptedSet {Params Input : Type} (forward : Params → Input → ℚ × Nat)
    (threshold : ℚ) (s : TrainerState Params Input) : List (Nat × Nat) :=
  (acceptedIndices threshold (predictionOf forward s)).zip
    (acceptedLabels threshold (predictionOf forward s) (pseudoLabelsOf forward s))

/-- Embedding of `Trainer.get_pseudo_label` (lines 133-151): score the
pool with the teacher, filter by `p > threshold`, materialize the pseudo
partition, and rebind `self.train_dl` to `self.train_ds + self.pseudo_ds`
(line 150: the ORIGINAL labeled set concatenated with the fresh pseudo
partition — not the previously expanded set). -/
def get_pseudo_label {Params Input : Type} (forward : Params → Input → ℚ × Nat)
    (threshold : ℚ) (s : TrainerState Params Input) : TrainerState Params Input :=
  let prediction := predictionOf forward s
  let pseudo_labels := pseudoLabelsOf forward s
  let indices := acceptedIndices threshold prediction
  let labels := acceptedLabels threshold prediction pseudo_labels
  let pseudo_ds := fromIndicesAndLabels s.unlabel_pool indices labels
  { s with train_dl := s.train_ds ++ pseudo_ds }

/-- `self.teacher.load_state_dict(pth_files['state_dict'])` (line 66). -/
def loadTeacher {Params Input : Type} (p : Params)
    (s : TrainerState Params Input) : TrainerState Params Input :=
  { s with teacher := p }

/-- The dataset states across the orchestrator's rounds: `teachers` lists,
per round, the parameter state loaded from that round's best checkpoint
(the outcome of that round's training, an external collaborator); entry
`r` of the result is the state at the start of round `r`'s `train_noisy`
call, so its `train_dl` is the training set round `r` uses. -/
def selfTrainingStates {Params Input : Type} (forward : Params → Input → ℚ × Nat)
    (threshold : ℚ) (teachers : List Params) (s0 : TrainerState Params Input) :
    List (TrainerState Params Input) :=
  teachers.scanl (fun s p => get_pseudo_label forward threshold (loadTeacher p s)) s0

/-- `|TrainingSetSnapshot(r)|` for each round `r`: the example count of
the training set consumed by round `r`'s `train_noisy`. -/
def snapshotSizes {Params Input : Type} (forward : Params → Input → ℚ × Nat)
    (threshold : ℚ) (teachers : List Params) (s0 : TrainerState Params Input) : List Nat :=
  (selfTrainingStates forward threshold teachers s0).map (fun s => s.train_dl.length)

/-! ### Concrete instances used for counterexamples and witnesses

`cForward` is a teacher family over `Params := Nat`, `Input := Nat`:
teacher `0` predicts class `0` with confidence `1` on every input, any
other teacher predicts class `0` with confidence `0`. -/

def cForward : Nat → Nat → ℚ × Nat :=
  fun t _ => if t = 0 then ((1 : ℚ), 0) else ((0 : ℚ), 0)

/-- Initial trainer state: one labeled example, a two-example unlabeled
pool, `train_dl` initially the labeled set (line 36). -/
def cState : TrainerState Nat Nat :=
  { teacher := 0, train_ds := [(100, 0)], unlabel_pool := [7, 8], train_dl := [(100, 0)] }

/-- A second state with the same teacher and pool as `cState` but a
different labeled set. -/
def cStateB : TrainerState Nat Nat :=
  { teacher := 0, train_ds := [], unlabel_pool := [7, 8], train_dl := [] }

/-! ### Helper lemmas -/

lemma get_pseudo_label_teacher {Params Input : Type} (forward : Params → Input → ℚ × Nat)
    (threshold : ℚ) (s : TrainerState Params Input) :
    (get_pseudo_label forward threshold s).teacher = s.teacher := rfl

lemma get_pseudo_label_train_ds {Params Input : Type} (forward : Params → Input → ℚ × Nat)
    (threshold : ℚ) (s : TrainerState Params Input) :
    (get_pseudo_label forward threshold s).train_ds = s.train_ds := rfl

lemma get_pseudo_label_train_dl {Params Input : Type} (forward : Params → Input → ℚ × Nat)
    (threshold : ℚ) (s : TrainerState Params Input) :
    (get_pseudo_label forward threshold s).train_dl
      = s.train_ds ++ fromIndicesAndLabels s.unlabel_pool
          (acceptedIndices threshold (predictionOf forward s))
          (acceptedLabels threshold (predictionOf forward s) (pseudoLabelsOf forward s)) := rfl

lemma loadTeacher_train_ds {Params Input : Type} (p : Params) (s : TrainerState Params Input) :
    (loadTeacher p s).train_ds = s.train_ds := rfl

lemma loadTeacher_train_dl {Params Input : Type} (p : Params) (s : TrainerState Params Input) :
    (loadTeacher p s).train_dl = s.train_dl := rfl

/-- The training sets reachable by the orchestrator all consist of the
fixed original labeled set `D` followed by some pseudo partition. -/
lemma selfTrainingStates_invariant {Params Input : Type}
    (forward : Params → Input → ℚ × Nat) (threshold : ℚ) :
    ∀ (teachers : List Params) (s : TrainerState Params Input) (D : List (Input × Nat)),
      s.train_ds = D → (∃ ps, s.train_dl = D ++ ps) →
      ∀ st ∈ selfTrainingStates forward threshold teachers s,
        st.train_ds = D ∧ ∃ ps, st.train_dl = D ++ ps := by
  intro teachers
  induction teachers with
  | nil =>
      intro s D hds hdl st hst
      simp only [selfTrainingStates, List.scanl_nil, List.mem_singleton] at hst
      subst hst
      exact ⟨hds, hdl⟩
  | cons p ts ih =>
      intro s D hds hdl st hst
      simp only [selfTrainingStates, List.scanl_cons, List.singleton_append,
        List.mem_cons] at hst
      rcases hst with rfl | hst
      · exact ⟨hds, hdl⟩
      · refine ih (get_pseudo_label forward threshold (loadTeacher p s)) D ?_ ?_ st hst
        · rw [get_pseudo_label_train_ds, loadTeacher_train_ds, hds]
        · rw [get_pseudo_label_train_dl, loadTeacher_train_ds, hds]
          exact ⟨_, rfl⟩

/-! ### C1 -/

/-- C1 (counterexample): with one labeled example, a two-example pool, a
round-0 teacher accepting both pool examples and a round-1 teacher
accepting none, the training-set sizes across rounds are `[1, 3, 1]`:
round 2's set (1 example) is strictly smaller than round 1's (3
examples), so `|TrainingSetSnapshot(r+1)| ≥ |TrainingSetSnapshot(r)|`
fails at `r = 1`, and the two pseudo-labels accepted in round 0 are
removed again. -/
theorem snapshot_shrinks_counterexample :
    snapshotSizes cForward 0 [0, 1] cState = [1, 3, 1]
    ∧ ¬ ((snapshotSizes cForward 0 [0, 1] cState).getD 1 0
          ≤ (snapshotSizes cForward 0 [0, 1] cState).getD 2 0) := by
  decide

/-- C1 (amended): every round's training set is the original labeled set
followed by some (freshly rebuilt) pseudo partition — line 150 appends the
current pseudo partition to `self.train_ds`, the ORIGINAL labeled set, not
to the previously expanded set.  Hence every snapshot contains the
original labeled set and `|TrainingSetSnapshot(r)| ≥ |original|`, but the
sizes need not be monotone round over round and earlier rounds' accepted
pseudo-labels are dropped. -/
theorem snapshot_extends_original_only {Params Input : Type}
    (forward : Params → Input → ℚ × Nat) (threshold : ℚ)
    (teachers : List Params) (s0 : TrainerState Params Input)
    (h0 : s0.train_dl = s0.train_ds) :
    ∀ st ∈ selfTrainingStates forward threshold teachers s0,
      st.train_ds = s0.train_ds
      ∧ (∃ ps, st.train_dl = s0.train_ds ++ ps)
      ∧ s0.train_ds.length ≤ st.train_dl.length := by
  intro st hst
  obtain ⟨hds, ps, hdl⟩ :=
    selfTrainingStates_invariant forward threshold teachers s0 s0.train_ds rfl
      ⟨[], by rw [h0, List.append_nil]⟩ st hst
  refine ⟨hds, ⟨ps, hdl⟩, ?_⟩
  rw [hdl, List.length_append]
  exact Nat.le_add_right _ _

/-- C1 (witness): the amended statement applied to the concrete two-round
run. -/
theorem snapshot_extends_original_only_witness :
    cState.train_dl = cState.train_ds
    ∧ ∀ st ∈ selfTrainingStates cForward 0 [0, 1] cState,
        st.train_ds = cState.train_ds
        ∧ (∃ ps, st.train_dl = cState.train_ds ++ ps)
        ∧ cState.train_ds.length ≤ st.train_dl.length :=
  ⟨rfl, snapshot_extends_original_only cForward 0 [0, 1] cState rfl⟩

/-! ### C2 -/

/-- C2 (counterexample): in the concrete run of
`snapshot_shrinks_counterexample`, round 1's pseudo-labeling accepts
nothing, yet the next round's training set `[(100, 0)]` is NOT unchanged
from round 1's training set `[(100, 0), (7, 0), (8, 0)]` — it falls back
to the original labeled set. -/
theorem empty_pseudo_changes_set_counterexample :
    ((selfTrainingStates cForward 0 [0, 1] cState).map (fun s => s.train_dl))
      = [[(100, 0)], [(100, 0), (7, 0), (8, 0)], [(100, 0)]]
    ∧ acceptedIndices 0 (predictionOf cForward (loadTeacher 1
        ((selfTrainingStates cForward 0 [0, 1] cState).getD 1 cState))) = []
    ∧ ([(100, 0)] : List (Nat × Nat)) ≠ [(100, 0), (7, 0), (8, 0)] := by
  decide

/-- C2 (amended): if no unlabeled example clears the threshold, the pseudo
partition is empty and the next round's training set equals the ORIGINAL
labeled set; it therefore equals the prior round's training set exactly
when that set was itself the original labeled set (as in round 0, or when
the preceding round also accepted nothing).  The empty case is not an
error. -/
theorem empty_pseudo_keeps_original_set {Params Input : Type}
    (forward : Params → Input → ℚ × Nat) (threshold : ℚ)
    (s : TrainerState Params Input)
    (hempty : acceptedIndices threshold (predictionOf forward s) = []) :
    (get_pseudo_label forward threshold s).train_dl = s.train_ds
    ∧ (s.train_dl = s.train_ds →
        (get_pseudo_label forward threshold s).train_dl = s.train_dl) := by
  have h := get_pseudo_label_train_dl forward threshold s
  rw [hempty] at h
  rw [show fromIndicesAndLabels s.unlabel_pool []
        (acceptedLabels threshold (predictionOf forward s) (pseudoLabelsOf forward s)) = []
      from rfl, List.append_nil] at h
  exact ⟨h, fun h2 => by rw [h, h2]⟩

/-- C2 (witness): the amended statement at a concrete state whose teacher
accepts nothing. -/
theorem empty_pseudo_keeps_original_set_witness :
    acceptedIndices 0 (predictionOf cForward (loadTeacher 1 cState)) = []
    ∧ ((get_pseudo_label cForward 0 (loadTeacher 1 cState)).train_dl
          = (loadTeacher 1 cState).train_ds
       ∧ ((loadTeacher 1 cState).train_dl = (loadTeacher 1 cState).train_ds →
            (get_pseudo_label cForward 0 (loadTeacher 1 cState)).train_dl
              = (loadTeacher 1 cState).train_dl)) :=
  ⟨by decide, empty_pseudo_keeps_original_set cForward 0 (loadTeacher 1 cState) (by decide)⟩

/-! ### C5 -/

/-- C5: selecting `"step"` or `"cos"` constructs the corresponding
scheduler, but selecting `"cycle"` raises `NameError`: line 57 passes
`steps_per_epoch=iter_per_epoch` and the name `iter_per_epoch` is bound
nowhere in the module, so the one-cycle policy never yields a usable
scheduler — contradicting the specified configuration surface, which
offers all three policies. -/
theorem init_scheduler_cycle_nameError :
    init_scheduler "cycle" [150, 225] (1/10) 50 0 = .error (.nameError "iter_per_epoch")
    ∧ init_scheduler "step" [150, 225] (1/10) 50 0
        = .ok (some (.multiStepLR [150, 225] (1/10)))
    ∧ init_scheduler "cos" [150, 225] (1/10) 50 0
        = .ok (some (.cosineAnnealingLR 50 0)) := by
  refine ⟨?_, ?_, ?_⟩ <;> rfl

/-! ### C8 -/

/-- Unrolled form of the round loop of `Trainer.train`. -/
lemma trainLoop_succ (n : Nat) :
    trainLoop (n + 1) = ((List.range (n + 1)).flatMap roundEvents, some n) := by
  induction n with
  | zero => rfl
  | succ k ih =>
      have h1 : List.range (k + 1 + 1) = List.range (k + 1) ++ [k + 1] :=
        List.range_succ (k + 1)
      simp only [trainLoop] at ih ⊢
      rw [h1, List.foldl_append, ih]
      simp [List.flatMap_append]

/-- C8: for a round count `steps ≥ 1`, `Trainer.train` performs exactly
`steps` iterations of {train round `r`, load round `r`'s best checkpoint
into the teacher, pseudo-label with that teacher}, followed by exactly one
final `train_noisy(steps)` with no pseudo-labeling after it; in the trace,
round `r`'s `pseudoLabel` event carries teacher checkpoint `r` and
immediately follows `loadCheckpoint r`. -/
theorem train_rounds_then_final (steps : Nat) (h : 1 ≤ steps) :
    train steps = .ok (((List.range steps).flatMap roundEvents) ++ [.trainNoisy steps]) := by
  obtain ⟨n, rfl⟩ : ∃ n, steps = n + 1 := ⟨steps - 1, by omega⟩
  simp [train, trainLoop_succ]

/-- C8 (witness): the trace of a two-round run. -/
theorem train_rounds_then_final_witness :
    (1 : Nat) ≤ 2
    ∧ train 2 = .ok (((List.range 2).flatMap roundEvents) ++ [.trainNoisy 2]) :=
  ⟨by decide, train_rounds_then_final 2 (by decide)⟩

/-! ### C9 -/

/-- C9: the pseudo-labeling pass mutates no teacher parameter state and no
pool, and its accepted (index, label) set is a function of the teacher
parameters and the unlabeled pool alone, so two runs on the same teacher
state and pool agree.  The pass runs under `torch.no_grad()` with the
teacher in `eval()` mode (lines 134-135); the embedding realizes this by
making inference a pure read of the teacher parameters. -/
theorem pseudo_labeler_deterministic_readonly {Params Input : Type}
    (forward : Params → Input → ℚ × Nat) (threshold : ℚ)
    (s₁ s₂ : TrainerState Params Input)
    (ht : s₁.teacher = s₂.teacher) (hp : s₁.unlabel_pool = s₂.unlabel_pool) :
    (get_pseudo_label forward threshold s₁).teacher = s₁.teacher
    ∧ (get_pseudo_label forward threshold s₁).unlabel_pool = s₁.unlabel_pool
    ∧ acceptedSet forward threshold s₁ = acceptedSet forward threshold s₂ := by
  refine ⟨rfl, rfl, ?_⟩
  simp only [acceptedSet, predictionOf, pseudoLabelsOf, ht, hp]

/-- C9 (witness): two states sharing teacher and pool but differing in
their labeled sets yield the same accepted set. -/
theorem pseudo_labeler_deterministic_readonly_witness :
    cState.teacher = cStateB.teacher
    ∧ cState.unlabel_pool = cStateB.unlabel_pool
    ∧ ((get_pseudo_label cForward 0 cState).teacher = cState.teacher
       ∧ (get_pseudo_label cForward 0 cState).unlabel_pool = cState.unlabel_pool
       ∧ acceptedSet cForward 0 cState = acceptedSet cForward 0 cStateB) :=
  ⟨rfl, rfl, pseudo_labeler_deterministic_readonly cForward 0 cState cStateB rfl rfl⟩

/-! ### C10 -/

/-- C10: with a configured round count of 0, `Trainer.train` raises
`NameError` at `self.train_noisy(step + 1)` (line 68): the loop variable
`step` was never bound because `range(0)` is empty, so no final training
pass happens and `steps ≥ 1` is a hard precondition of `train`. -/
theorem train_zero_rounds_nameError : train 0 = .error (.nameError "step") := rfl

/-! ### C6 -/

/-- A pool index is accepted exactly when its confidence is strictly
above the threshold. -/
lemma mem_acceptedIndices_iff (threshold : ℚ) (prediction : List ℚ) (i : Nat) :
    i ∈ acceptedIndices threshold prediction ↔
      ∃ h : i < prediction.length, threshold < prediction.get ⟨i, h⟩ := by
  constructor
  · intro hmem
    simp only [acceptedIndices, List.mem_map, List.mem_filter] at hmem
    obtain ⟨⟨j, x⟩, ⟨henum, hx⟩, hji⟩ := hmem
    cases hji
    rw [List.mk_mem_enum_iff_getElem?] at henum
    obtain ⟨hlt, hget⟩ := List.getElem?_eq_some_iff.1 henum
    refine ⟨hlt, ?_⟩
    rw [decide_eq_true_eq] at hx
    rw [List.get_eq_getElem, hget]
    exact hx
  · rintro ⟨hlt, hgt⟩
    simp only [acceptedIndices, List.mem_map, List.mem_filter]
    refine ⟨(i, prediction.get ⟨i, hlt⟩), ⟨?_, ?_⟩, rfl⟩
    · rw [List.mk_mem_enum_iff_getElem?, List.getElem?_eq_some_iff]
      exact ⟨hlt, by rw [List.get_eq_getElem]⟩
    · exact decide_eq_true hgt

/-- Accepted indices appear in pool order. -/
lemma acceptedIndices_sorted (threshold : ℚ) (prediction : List ℚ) :
    List.Sorted (· < ·) (acceptedIndices threshold prediction) := by
  have hsub : List.Sublist (acceptedIndices threshold prediction)
      (prediction.enum.map Prod.fst) :=
    List.Sublist.map Prod.fst (List.filter_sublist _)
  rw [List.enum_map_fst] at hsub
  exact List.Pairwise.sublist hsub (List.pairwise_lt_range _)

/-- The two comprehensions of lines 146-147 filter the same positions, so
zipping their outputs pairs each kept pool index with the label predicted
at that index. -/
lemma zip_accepted_eq (threshold : ℚ) (prediction : List ℚ) :
    ∀ (n : Nat) (pseudo_labels : List Nat),
      prediction.length = pseudo_labels.length →
      (((List.enumFrom n prediction).filter (fun ip => threshold < ip.2)).map Prod.fst).zip
          (((prediction.zip pseudo_labels).filter (fun pl => threshold < pl.1)).map Prod.snd)
        = ((List.enumFrom n (prediction.zip pseudo_labels)).filter
            (fun x => threshold < x.2.1)).map (fun x => (x.1, x.2.2)) := by
  induction prediction with
  | nil => intro n pseudo_labels _; simp
  | cons p ps ih =>
      intro n pseudo_labels h
      cases pseudo_labels with
      | nil => simp at h
      | cons l ls =>
          have h' : ps.length = ls.length := by simpa using h
          simp only [List.enumFrom_cons, List.zip_cons_cons, List.filter_cons]
          by_cases hp : threshold < p
          · simp [hp, ih (n + 1) ls h']
          · simp [hp, ih (n + 1) ls h']


/-- C6: pseudo-label filtering is strictly boundary-exclusive: an
unlabeled example is accepted iff its top-class confidence is strictly
greater than the threshold `τ` (an example whose confidence equals `τ` is
rejected), and the accepted output pairs each kept pool index with its
predicted class, in pool order. -/
theorem pseudo_filter_strictly_exclusive (threshold : ℚ) (prediction : List ℚ)
    (pseudo_labels : List Nat) (hlen : prediction.length = pseudo_labels.length) :
    (∀ i : Nat, i ∈ acceptedIndices threshold prediction ↔
        ∃ h : i < prediction.length, threshold < prediction.get ⟨i, h⟩)
    ∧ (∀ (i : Nat) (h : i < prediction.length),
        prediction.get ⟨i, h⟩ = threshold → i ∉ acceptedIndices threshold prediction)
    ∧ (acceptedIndices threshold prediction).zip
          (acceptedLabels threshold prediction pseudo_labels)
        = ((prediction.zip pseudo_labels).enum.filter
            (fun x => threshold < x.2.1)).map (fun x => (x.1, x.2.2))
    ∧ List.Sorted (· < ·) (acceptedIndices threshold prediction) := by
  refine ⟨mem_acceptedIndices_iff threshold prediction, ?_, ?_, ?_⟩
  · intro i h heq hmem
    obtain ⟨h2, hgt⟩ := (mem_acceptedIndices_iff threshold prediction i).1 hmem
    rw [heq] at hgt
    exact lt_irrefl threshold hgt
  · have hz := zip_accepted_eq threshold prediction 0 pseudo_labels hlen
    have he1 : prediction.enum = List.enumFrom 0 prediction := rfl
    have he2 : (prediction.zip pseudo_labels).enum
        = List.enumFrom 0 (prediction.zip pseudo_labels) := rfl
    rw [acceptedIndices, acceptedLabels, he1, he2, hz]
  · exact acceptedIndices_sorted threshold prediction

/-- C6 (witness): the characterization at the spec's synthetic pool of
ten confidences with `τ = 0.8` — exactly indices 0, 2, 4, 7 pass. -/
theorem pseudo_filter_strictly_exclusive_witness :
    ([9/10, 2/5, 19/20, 1/5, 99/100, 1/2, 3/10, 17/20, 1/10, 3/5] : List ℚ).length
        = ([0, 1, 2, 3, 4, 5, 6, 7, 8, 9] : List Nat).length
    ∧ ((∀ i : Nat, i ∈ acceptedIndices (4/5)
            [9/10, 2/5, 19/20, 1/5, 99/100, 1/2, 3/10, 17/20, 1/10, 3/5] ↔
          ∃ h : i < ([9/10, 2/5, 19/20, 1/5, 99/100, 1/2, 3/10, 17/20, 1/10, 3/5] : List ℚ).length,
            (4/5 : ℚ) < ([9/10, 2/5, 19/20, 1/5, 99/100, 1/2, 3/10, 17/20, 1/10, 3/5] : List ℚ).get ⟨i, h⟩)
       ∧ (∀ (i : Nat) (h : i < ([9/10, 2/5, 19/20, 1/5, 99/100, 1/2, 3/10, 17/20, 1/10, 3/5] : List ℚ).length),
            ([9/10, 2/5, 19/20, 1/5, 99/100, 1/2, 3/10, 17/20, 1/10, 3/5] : List ℚ).get ⟨i, h⟩ = 4/5 →
              i ∉ acceptedIndices (4/5) [9/10, 2/5, 19/20, 1/5, 99/100, 1/2, 3/10, 17/20, 1/10, 3/5])
       ∧ (acceptedIndices (4/5) [9/10, 2/5, 19/20, 1/5, 99/100, 1/2, 3/10, 17/20, 1/10, 3/5]).zip
             (acceptedLabels (4/5) [9/10, 2/5, 19/20, 1/5, 99/100, 1/2, 3/10, 17/20, 1/10, 3/5]
               [0, 1, 2, 3, 4, 5, 6, 7, 8, 9])
           = ((([9/10, 2/5, 19/20, 1/5, 99/100, 1/2, 3/10, 17/20, 1/10, 3/5] : List ℚ).zip
               ([0, 1, 2, 3, 4, 5, 6, 7, 8, 9] : List Nat)).enum.filter
                 (fun x => (4/5 : ℚ) < x.2.1)).map (fun x => (x.1, x.2.2))
       ∧ List.Sorted (· < ·) (acceptedIndices (4/5)
            [9/10, 2/5, 19/20, 1/5, 99/100, 1/2, 3/10, 17/20, 1/10, 3/5])) :=
  ⟨rfl, pseudo_filter_strictly_exclusive (4/5)
    [9/10, 2/5, 19/20, 1/5, 99/100, 1/2, 3/10, 17/20, 1/10, 3/5]
    [0, 1, 2, 3, 4, 5, 6, 7, 8, 9] rfl⟩


/-! ### Epoch-loop unfolding lemmas, one per control-flow branch -/

lemma epochLoop_nil (sch : String) (w P epoch es : Nat) (bacc : ℚ) (bep : Nat)
    (ws : List (Nat × ℚ)) (ss : Nat) :
    epochLoop sch w P [] epoch es bacc bep ws ss = ⟨epoch, bep, bacc, ws, ss⟩ := rfl

lemma epochLoop_cons_improve_stop (sch : String) (w P : Nat) (v : ℚ) (vs : List ℚ)
    (epoch es : Nat) (bacc : ℚ) (bep : Nat) (ws : List (Nat × ℚ)) (ss : Nat)
    (hv : bacc < v) (hP : 0 = P) :
    epochLoop sch w P (v :: vs) epoch es bacc bep ws ss
      = ⟨epoch + 1, epoch, v, ws ++ [(epoch, v)], schedTick sch w epoch ss⟩ := by
  simp only [epochLoop, if_pos hv, if_pos hP]

lemma epochLoop_cons_improve_go (sch : String) (w P : Nat) (v : ℚ) (vs : List ℚ)
    (epoch es : Nat) (bacc : ℚ) (bep : Nat) (ws : List (Nat × ℚ)) (ss : Nat)
    (hv : bacc < v) (hP : ¬ 0 = P) :
    epochLoop sch w P (v :: vs) epoch es bacc bep ws ss
      = epochLoop sch w P vs (epoch + 1) 0 v epoch (ws ++ [(epoch, v)])
          (schedTick sch w epoch ss) := by
  simp only [epochLoop, if_pos hv, if_neg hP]

lemma epochLoop_cons_fail_stop (sch : String) (w P : Nat) (v : ℚ) (vs : List ℚ)
    (epoch es : Nat) (bacc : ℚ) (bep : Nat) (ws : List (Nat × ℚ)) (ss : Nat)
    (hv : ¬ bacc < v) (hP : es + 1 = P) :
    epochLoop sch w P (v :: vs) epoch es bacc bep ws ss
      = ⟨epoch + 1, bep, bacc, ws, schedTick sch w epoch ss⟩ := by
  simp only [epochLoop, if_neg hv, if_pos hP]

lemma epochLoop_cons_fail_go (sch : String) (w P : Nat) (v : ℚ) (vs : List ℚ)
    (epoch es : Nat) (bacc : ℚ) (bep : Nat) (ws : List (Nat × ℚ)) (ss : Nat)
    (hv : ¬ bacc < v) (hP : ¬ es + 1 = P) :
    epochLoop sch w P (v :: vs) epoch es bacc bep ws ss
      = epochLoop sch w P vs (epoch + 1) (es + 1) bacc bep ws
          (schedTick sch w epoch ss) := by
  simp only [epochLoop, if_neg hv, if_neg hP]


/-- Checkpoint writes are never un-written: once `writes` is nonempty it
stays nonempty. -/
lemma epochLoop_writes_ne_nil (sch : String) (w P : Nat) :
    ∀ (rest : List ℚ) (epoch es : Nat) (bacc : ℚ) (bep : Nat) (ws : List (Nat × ℚ)) (ss : Nat),
      ws ≠ [] → (epochLoop sch w P rest epoch es bacc bep ws ss).writes ≠ [] := by
  intro rest
  induction rest with
  | nil =>
      intro epoch es bacc bep ws ss h
      rw [epochLoop_nil]
      exact h
  | cons v vs ih =>
      intro epoch es bacc bep ws ss h
      by_cases hv : bacc < v
      · by_cases hP : 0 = P
        · rw [epochLoop_cons_improve_stop sch w P v vs epoch es bacc bep ws ss hv hP]
          simp
        · rw [epochLoop_cons_improve_go sch w P v vs epoch es bacc bep ws ss hv hP]
          exact ih _ _ _ _ _ _ (by simp)
      · by_cases hP : es + 1 = P
        · rw [epochLoop_cons_fail_stop sch w P v vs epoch es bacc bep ws ss hv hP]
          exact h
        · rw [epochLoop_cons_fail_go sch w P v vs epoch es bacc bep ws ss hv hP]
          exact ih _ _ _ _ _ _ h

/-- The epoch counter only moves forward. -/
lemma epochLoop_epochsRun_ge (sch : String) (w P : Nat) :
    ∀ (rest : List ℚ) (epoch es : Nat) (bacc : ℚ) (bep : Nat) (ws : List (Nat × ℚ)) (ss : Nat),
      epoch ≤ (epochLoop sch w P rest epoch es bacc bep ws ss).epochsRun := by
  intro rest
  induction rest with
  | nil =>
      intro epoch es bacc bep ws ss
      rw [epochLoop_nil]
  | cons v vs ih =>
      intro epoch es bacc bep ws ss
      by_cases hv : bacc < v
      · by_cases hP : 0 = P
        · rw [epochLoop_cons_improve_stop sch w P v vs epoch es bacc bep ws ss hv hP]
          exact Nat.le_succ epoch
        · rw [epochLoop_cons_improve_go sch w P v vs epoch es bacc bep ws ss hv hP]
          exact Nat.le_of_succ_le (ih _ _ _ _ _ _)
      · by_cases hP : es + 1 = P
        · rw [epochLoop_cons_fail_stop sch w P v vs epoch es bacc bep ws ss hv hP]
          exact Nat.le_succ epoch
        · rw [epochLoop_cons_fail_go sch w P v vs epoch es bacc bep ws ss hv hP]
          exact Nat.le_of_succ_le (ih _ _ _ _ _ _)


/-- Scheduler-advance count of the remaining loop: one advance per
executed epoch whose index satisfies the cosine warm-up guard. -/
lemma epochLoop_schedSteps (sch : String) (w P : Nat) :
    ∀ (rest : List ℚ) (epoch es : Nat) (bacc : ℚ) (bep : Nat) (ws : List (Nat × ℚ)) (ss : Nat),
      (epochLoop sch w P rest epoch es bacc bep ws ss).schedSteps
        = ss + ((List.range' epoch
            ((epochLoop sch w P rest epoch es bacc bep ws ss).epochsRun - epoch)).filter
              (fun e => sch = "cos" ∧ w < e)).length := by
  intro rest
  induction rest with
  | nil =>
      intro epoch es bacc bep ws ss
      rw [epochLoop_nil]
      simp
  | cons v vs ih =>
      intro epoch es bacc bep ws ss
      by_cases hv : bacc < v
      · by_cases hP : 0 = P
        · rw [epochLoop_cons_improve_stop sch w P v vs epoch es bacc bep ws ss hv hP]
          have h1 : epoch + 1 - epoch = 1 := by omega
          have h2 : List.range' epoch 1 = epoch :: List.range' (epoch + 1) 0 :=
            List.range'_succ epoch 0 1
          rw [h1, h2]
          by_cases hc : sch = "cos" ∧ w < epoch
          · simp [schedTick, hc]
          · simp [schedTick, hc]
        · rw [epochLoop_cons_improve_go sch w P v vs epoch es bacc bep ws ss hv hP]
          rw [ih]
          have hge := epochLoop_epochsRun_ge sch w P vs (epoch + 1) 0 v epoch
            (ws ++ [(epoch, v)]) (schedTick sch w epoch ss)
          have hsub : (epochLoop sch w P vs (epoch + 1) 0 v epoch (ws ++ [(epoch, v)])
              (schedTick sch w epoch ss)).epochsRun - epoch
            = ((epochLoop sch w P vs (epoch + 1) 0 v epoch (ws ++ [(epoch, v)])
                (schedTick sch w epoch ss)).epochsRun - (epoch + 1)) + 1 := by omega
          rw [hsub, List.range'_succ epoch _ 1, List.filter_cons]
          by_cases hc : sch = "cos" ∧ w < epoch
          · rw [decide_eq_true hc, if_pos rfl, List.length_cons]
            simp only [schedTick, if_pos hc]
            omega
          · rw [decide_eq_false hc, if_neg Bool.false_ne_true]
            simp only [schedTick, if_neg hc]
      · by_cases hP : es + 1 = P
        · rw [epochLoop_cons_fail_stop sch w P v vs epoch es bacc bep ws ss hv hP]
          have h1 : epoch + 1 - epoch = 1 := by omega
          have h2 : List.range' epoch 1 = epoch :: List.range' (epoch + 1) 0 :=
            List.range'_succ epoch 0 1
          rw [h1, h2]
          by_cases hc : sch = "cos" ∧ w < epoch
          · simp [schedTick, hc]
          · simp [schedTick, hc]
        · rw [epochLoop_cons_fail_go sch w P v vs epoch es bacc bep ws ss hv hP]
          rw [ih]
          have hge := epochLoop_epochsRun_ge sch w P vs (epoch + 1) (es + 1) bacc bep ws
            (schedTick sch w epoch ss)
          have hsub : (epochLoop sch w P vs (epoch + 1) (es + 1) bacc bep ws
              (schedTick sch w epoch ss)).epochsRun - epoch
            = ((epochLoop sch w P vs (epoch + 1) (es + 1) bacc bep ws
                (schedTick sch w epoch ss)).epochsRun - (epoch + 1)) + 1 := by omega
          rw [hsub, List.range'_succ epoch _ 1, List.filter_cons]
          by_cases hc : sch = "cos" ∧ w < epoch
          · rw [decide_eq_true hc, if_pos rfl, List.length_cons]
            simp only [schedTick, if_pos hc]
            omega
          · rw [decide_eq_false hc, if_neg Bool.false_ne_true]
            simp only [schedTick, if_neg hc]


/-- Appending a strictly better checkpoint write keeps the writes chain
strictly increasing in validation top-1. -/
lemma chain_append_write (ws : List (Nat × ℚ)) (bep : Nat) (bacc : ℚ) (e : Nat) (v : ℚ)
    (hch : List.Chain' (fun a b => a.2 < b.2) ws)
    (hlast : ws ≠ [] → ws.getLast? = some (bep, bacc))
    (hv : bacc < v) :
    List.Chain' (fun a b => a.2 < b.2) (ws ++ [(e, v)]) := by
  rw [List.chain'_append]
  refine ⟨hch, List.chain'_singleton _, ?_⟩
  intro x hx y hy
  have hwne : ws ≠ [] := by
    intro h
    subst h
    simp at hx
  rw [hlast hwne] at hx
  simp only [Option.mem_def, Option.some_inj] at hx
  simp only [List.head?_cons, Option.mem_def, Option.some_inj] at hy
  subst hx
  subst hy
  exact hv

/-- Main early-stopping invariant.  Preconditions relate the
accumulators of a reachable loop state: before any write the counter
equals the epoch index and the best trackers hold their line 77-81
sentinels; after a write, `epoch = best_epoch + 1 + early_stopping`, the
counter is below the patience, and the last write holds the best pair.
Conclusions: if any write happened, the loop runs exactly to
`min (best_epoch + patience + 1) E`, and the written accuracies increase
strictly. -/
lemma epochLoop_earlyStop_spec (sch : String) (w P : Nat) :
    ∀ (rest : List ℚ) (epoch es : Nat) (bacc : ℚ) (bep : Nat) (ws : List (Nat × ℚ)) (ss : Nat),
      (ws = [] → es = epoch ∧ bacc = 0 ∧ bep = 0) →
      (ws ≠ [] → es < P ∧ epoch = bep + 1 + es ∧ ws.getLast? = some (bep, bacc)) →
      List.Chain' (fun a b => a.2 < b.2) ws →
      ((epochLoop sch w P rest epoch es bacc bep ws ss).writes ≠ [] →
        (epochLoop sch w P rest epoch es bacc bep ws ss).epochsRun
          = min ((epochLoop sch w P rest epoch es bacc bep ws ss).bestEpoch + P + 1)
              (epoch + rest.length))
      ∧ List.Chain' (fun a b => a.2 < b.2)
          (epochLoop sch w P rest epoch es bacc bep ws ss).writes := by
  intro rest
  induction rest with
  | nil =>
      intro epoch es bacc bep ws ss h0 h1 hch
      rw [epochLoop_nil]
      refine ⟨?_, hch⟩
      intro hne
      obtain ⟨hes, hep, _⟩ := h1 hne
      simp only [List.length_nil, Nat.add_zero]
      omega
  | cons v vs ih =>
      intro epoch es bacc bep ws ss h0 h1 hch
      have hlast : ws ≠ [] → ws.getLast? = some (bep, bacc) := fun h => (h1 h).2.2
      by_cases hv : bacc < v
      · by_cases hP : 0 = P
        · rw [epochLoop_cons_improve_stop sch w P v vs epoch es bacc bep ws ss hv hP]
          refine ⟨?_, chain_append_write ws bep bacc epoch v hch hlast hv⟩
          intro _
          simp only [List.length_cons]
          omega
        · rw [epochLoop_cons_improve_go sch w P v vs epoch es bacc bep ws ss hv hP]
          have h0' : ws ++ [(epoch, v)] = [] → 0 = epoch + 1 ∧ v = 0 ∧ epoch = 0 := by
            intro h
            exact absurd h (by simp)
          have h1' : ws ++ [(epoch, v)] ≠ [] →
              0 < P ∧ epoch + 1 = epoch + 1 + 0 ∧ (ws ++ [(epoch, v)]).getLast? = some (epoch, v) := by
            intro _
            refine ⟨by omega, by omega, ?_⟩
            rw [List.getLast?_concat]
          obtain ⟨hA, hB⟩ := ih (epoch + 1) 0 v epoch (ws ++ [(epoch, v)])
            (schedTick sch w epoch ss) h0' h1'
            (chain_append_write ws bep bacc epoch v hch hlast hv)
          refine ⟨?_, hB⟩
          intro hne
          rw [hA hne]
          simp only [List.length_cons]
          omega
      · by_cases hP : es + 1 = P
        · rw [epochLoop_cons_fail_stop sch w P v vs epoch es bacc bep ws ss hv hP]
          refine ⟨?_, hch⟩
          intro hne
          obtain ⟨hes, hep, _⟩ := h1 hne
          simp only [List.length_cons]
          omega
        · rw [epochLoop_cons_fail_go sch w P v vs epoch es bacc bep ws ss hv hP]
          have h0' : ws = [] → es + 1 = epoch + 1 ∧ bacc = 0 ∧ bep = 0 := by
            intro h
            obtain ⟨a, b, c⟩ := h0 h
            exact ⟨by omega, b, c⟩
          have h1' : ws ≠ [] →
              es + 1 < P ∧ epoch + 1 = bep + 1 + (es + 1) ∧ ws.getLast? = some (bep, bacc) := by
            intro h
            obtain ⟨a, b, c⟩ := h1 h
            exact ⟨by omega, by omega, c⟩
          obtain ⟨hA, hB⟩ := ih (epoch + 1) (es + 1) bacc bep ws
            (schedTick sch w epoch ss) h0' h1' hch
          refine ⟨?_, hB⟩
          intro hne
          rw [hA hne]
          simp only [List.length_cons]
          omega


/-! ### C3, C4, C7 -/

/-- C3 (counterexample): a round with epoch budget `E = 2 ≥ 1`, patience
1, and validation top-1 equal to 0 at every epoch terminates its epoch
loop (by early stopping) having written no checkpoint at all — line 106
writes only on `val_top1 > best_acc` with `best_acc` initialized to 0, so
the orchestrator's subsequent `torch.load` of `best_model_{step}.pth`
hits the CheckpointMissing condition. -/
theorem no_checkpoint_written_counterexample :
    (train_noisy "step" 0 1 [0, 0]).writes = []
    ∧ (train_noisy "step" 0 1 [0, 0]).epochsRun = 1
    ∧ 1 ≤ ([0, 0] : List ℚ).length := by
  decide

/-- C3 (amended): if the first epoch's validation top-1 strictly exceeds
the 0 sentinel, the round writes at least one checkpoint (at epoch 0), so
the subsequent checkpoint load succeeds; the guarantee is conditional on
some epoch beating the sentinel, not unconditional. -/
theorem checkpoint_written_of_first_val_pos (sch : String) (w P : Nat) (v : ℚ) (vs : List ℚ)
    (hv : 0 < v) :
    (train_noisy sch w P (v :: vs)).writes ≠ [] := by
  simp only [train_noisy]
  by_cases hP : 0 = P
  · rw [epochLoop_cons_improve_stop sch w P v vs 0 0 0 0 [] 0 hv hP]
    simp
  · rw [epochLoop_cons_improve_go sch w P v vs 0 0 0 0 [] 0 hv hP]
    exact epochLoop_writes_ne_nil sch w P vs 1 0 v 0 ([] ++ [(0, v)]) _ (by simp)

/-- C3 (witness): a round whose first validation top-1 is positive
writes a checkpoint. -/
theorem checkpoint_written_of_first_val_pos_witness :
    (0 : ℚ) < 1 ∧ (train_noisy "step" 0 1 [1, 0]).writes ≠ [] :=
  ⟨by norm_num, checkpoint_written_of_first_val_pos "step" 0 1 1 [0] (by norm_num)⟩

/-- C4 (counterexample): under the fixed-step policy a round that runs 3
epochs advances the scheduler 0 times, not once per epoch — lines 85-87
step the scheduler only in the `"cos"` branch, and no other line of the
epoch loop calls `scheduler.step()`. -/
theorem scheduler_never_advances_counterexample :
    (train_noisy "step" 0 5 [1, 2, 3]).epochsRun = 3
    ∧ (train_noisy "step" 0 5 [1, 2, 3]).schedSteps = 0 := by
  decide

/-- C4 (amended): across any round, the scheduler is advanced only under
the cosine policy, once per executed epoch whose index is strictly
greater than the configured `warm_epoch`; under the fixed-step and
one-cycle policies the epoch loop never advances the scheduler. -/
theorem scheduler_advances_only_cosine (sch : String) (w P : Nat) (vals : List ℚ) :
    (train_noisy sch w P vals).schedSteps
      = if sch = "cos"
        then ((List.range (train_noisy sch w P vals).epochsRun).filter
            (fun e => w < e)).length
        else 0 := by
  have h := epochLoop_schedSteps sch w P vals 0 0 0 0 [] 0
  simp only [Nat.zero_add, Nat.sub_zero] at h
  simp only [train_noisy] at h ⊢
  rw [h, ← List.range_eq_range']
  by_cases hc : sch = "cos"
  · rw [if_pos hc]
    have hfc : List.filter (fun e => decide (sch = "cos" ∧ w < e))
          (List.range (epochLoop sch w P vals 0 0 0 0 [] 0).epochsRun)
        = List.filter (fun e => decide (w < e))
          (List.range (epochLoop sch w P vals 0 0 0 0 [] 0).epochsRun) :=
      List.filter_congr (fun a _ => by simp [hc])
    rw [hfc]
  · rw [if_neg hc]
    simp [hc]

/-- C7: given patience `P` and epoch budget `E = vals.length`, in a
round with at least one checkpoint write (the claim presupposes a last
improvement at `best_epoch`), the epoch loop executes exactly
`min (best_epoch + P + 1)  E` epochs — i.e. its last executed epoch index
is `best_epoch + P`, or the budget is exhausted, whichever comes first —
and successive checkpoint writes carry strictly increasing validation
top-1 values (each write strictly improves the prior best and resets the
early-stop counter). -/
theorem early_stopping_halts (sch : String) (w P : Nat) (vals : List ℚ)
    (hw : (train_noisy sch w P vals).writes ≠ []) :
    (train_noisy sch w P vals).epochsRun
      = min ((train_noisy sch w P vals).bestEpoch + P + 1) vals.length
    ∧ List.Chain' (fun a b => a.2 < b.2) (train_noisy sch w P vals).writes := by
  have h := epochLoop_earlyStop_spec sch w P vals 0 0 0 0 [] 0
    (fun _ => ⟨rfl, rfl, rfl⟩) (fun hne => absurd rfl hne) List.chain'_nil
  simp only [train_noisy] at hw ⊢
  obtain ⟨hA, hB⟩ := h
  refine ⟨?_, hB⟩
  have h2 := hA hw
  rw [Nat.zero_add] at h2
  exact h2

/-- C7 (witness): the spec's scenario `E = 5`, `P = 2`, validation
top-1 sequence `[0.50, 0.60, 0.55, 0.58, 0.40]` scaled by 100 — the loop
halts after epoch index 3 with best epoch 1. -/
theorem early_stopping_halts_witness :
    (train_noisy "step" 0 2 [50, 60, 55, 58, 40]).writes ≠ []
    ∧ ((train_noisy "step" 0 2 [50, 60, 55, 58, 40]).epochsRun
          = min ((train_noisy "step" 0 2 [50, 60, 55, 58, 40]).bestEpoch + 2 + 1)
              ([50, 60, 55, 58, 40] : List ℚ).length
       ∧ List.Chain' (fun a b => a.2 < b.2)
            (train_noisy "step" 0 2 [50, 60, 55, 58, 40]).writes) :=
  ⟨by decide, early_stopping_halts "step" 0 2 [50, 60, 55, 58, 40] (by decide)⟩

end NoisyStudent
